import Mathlib

/-!
Verification of the pokerok MSI property reader (pokerok.py).

The script is embedded shallowly: the Python dict holding the Property
table becomes an insertion-ordered association list, the msilib calls
become an abstract outcome parameter, printing becomes the list of lines
written, and the entry point becomes a pure function from an environment
describing the file system and the MSI library outcome to an exit code
plus the stdout and stderr line lists.
-/

set_option maxHeartbeats 1000000
set_option maxRecDepth 40000

namespace Pokerok

/-- A Python dict with string keys and values, as an insertion-ordered
association list whose keys are kept unique by dictInsert. -/
abbrev Dict := List (String × String)

/-- Embeds properties.get(key) and properties[key]: the entry with the
given key, if any (keys are unique in every dict the script builds). -/
def dictGet (d : Dict) (k : String) : Option String :=
  (d.find? (fun p => p.1 == k)).map (fun p => p.2)

/-- Embeds properties.keys() in insertion order, as Python dicts iterate. -/
def dictKeys (d : Dict) : List String :=
  d.map (fun p => p.1)

/-- Embeds the assignment properties[name] = value: Python overwrites the
value in place when the key exists (keeping its position) and appends a
new entry otherwise. -/
def dictInsert (d : Dict) (k v : String) : Dict :=
  if d.any (fun p => p.1 == k) then
    d.map (fun p => if p.1 == k then (p.1, v) else p)
  else
    d ++ [(k, v)]

/-- Embeds the fetch loop of read_msi_properties (lines 47 to 54): a linear
scan over the fetched rows, storing each (name, value) pair. -/
def buildDict (rows : List (String × String)) : Dict :=
  rows.foldl (fun d r => dictInsert d r.1 r.2) []

/-- Modelled from the spec: the outcome of the msilib calls for one path.
msilib is the external installer-database library. OpenDatabase raises
MSIError when the file is not a valid package or is corrupt (openError);
OpenView or Execute raises MSIError when the Property table is missing
(viewError); any non-MSI exception inside the try block is otherError;
otherwise the query succeeds and yields the fetched row sequence. -/
inductive MsiOutcome where
  | openError (msg : String)
  | viewError (msg : String)
  | otherError (msg : String)
  | fetched (rows : List (String × String))
deriving DecidableEq

/-- A Python exception escaping the reader: an msilib.MSIError or any
other exception. -/
inductive PyErr where
  | msi (msg : String)
  | other (msg : String)
deriving DecidableEq

/-- Embeds read_msi_properties (lines 30 to 56): open the database, open
and execute the view (an MSIError there is re-raised with a wrapping
message), then scan the rows into a dict. -/
def read_msi_properties (o : MsiOutcome) : Except PyErr Dict :=
  match o with
  | .openError m => .error (.msi m)
  | .viewError m => .error (.msi ("Не удалось открыть таблицу Property: " ++ m))
  | .otherError m => .error (.other m)
  | .fetched rows => .ok (buildDict rows)

/-- The marker the script prints for a missing well-known property. -/
def placeholderText : String := "не указано"

/-- Embeds the format spec of width 14 for a string: pad on the right with
spaces up to 14 characters. -/
def padTo (s : String) (n : Nat) : String :=
  s.pushn ' ' (n - s.length)

/-- The value printed for a well-known key: the stored value when the key
is present, the placeholder when properties.get returns None. -/
def valueOr (d : Dict) (k : String) : String :=
  match dictGet d k with
  | some v => v
  | none => placeholderText

/-- One line of the key-properties block. -/
def keyLine (d : Dict) (k label : String) : String :=
  padTo label 14 ++ ": " ++ valueOr d k

def keyHeader : String := "=== Основная информация о продукте ==="

def allHeader : String := "=== Все свойства MSI (таблица Property) ==="

/-- The fixed list of well-known keys and their labels (lines 68 to 73). -/
def keyLabels : List (String × String) :=
  [("ProductName", "ProductName"), ("ProductCode", "ProductCode"),
   ("ProductVersion", "ProductVersion"), ("Manufacturer", "Manufacturer")]

/-- Embeds print_key_properties (lines 61 to 80): header, one line per
well-known key in the fixed order, then a blank separator line. -/
def print_key_properties (d : Dict) : List String :=
  keyHeader :: ((keyLabels.map (fun kl => keyLine d kl.1 kl.2)) ++ [""])

/-- Lexicographic comparison of character lists by code point, the order
Python uses on strings. -/
def charListLe : List Char → List Char → Bool
  | [], _ => true
  | _ :: _, [] => false
  | a :: as, b :: bs => if a = b then charListLe as bs else decide (a < b)

/-- Modelled from the spec: the code point mapping of the Python builtin
str.lower, the Unicode default lowercase mapping, which covers far more
than ASCII (the reports of this tool are Russian, so Cyrillic keys are in
its domain). The table below implements the Unicode simple lowercase
mapping for the bicameral blocks of the Basic Multilingual Plane (Latin
with its extensions, Greek and Greek Extended, Cyrillic, Armenian,
Georgian, Cherokee, Glagolitic, Coptic, the letterlike, number-form,
enclosed and fullwidth compatibility forms) and the common supplementary
alphabets; code points outside these blocks are returned unchanged. No
ordering theorem below depends on this table: every sorting result is
proved for an arbitrary key function, hence in particular for the exact
library function. -/
def pyLowerCode (n : Nat) : Nat :=
  if 0x41 ≤ n ∧ n ≤ 0x5A then n + 0x20
  else if n < 0xC0 then n
  else if 0xC0 ≤ n ∧ n ≤ 0xD6 then n + 0x20
  else if 0xD8 ≤ n ∧ n ≤ 0xDE then n + 0x20
  else if 0x100 ≤ n ∧ n ≤ 0x137 ∧ n % 2 = 0 then n + 1
  else if 0x139 ≤ n ∧ n ≤ 0x148 ∧ n % 2 = 1 then n + 1
  else if 0x14A ≤ n ∧ n ≤ 0x177 ∧ n % 2 = 0 then n + 1
  else if n = 0x178 then 0xFF
  else if n = 0x179 ∨ n = 0x17B ∨ n = 0x17D then n + 1
  else if n = 0x181 then 0x253
  else if n = 0x182 ∨ n = 0x184 then n + 1
  else if n = 0x186 then 0x254
  else if n = 0x187 then 0x188
  else if n = 0x189 ∨ n = 0x18A then n + 0xCD
  else if n = 0x18B then 0x18C
  else if n = 0x18E then 0x1DD
  else if n = 0x18F then 0x259
  else if n = 0x190 then 0x25B
  else if n = 0x191 then 0x192
  else if n = 0x193 then 0x260
  else if n = 0x194 then 0x263
  else if n = 0x196 then 0x269
  else if n = 0x197 then 0x268
  else if n = 0x198 then 0x199
  else if n = 0x19C then 0x26F
  else if n = 0x19D then 0x272
  else if n = 0x19F then 0x275
  else if n = 0x1A0 ∨ n = 0x1A2 ∨ n = 0x1A4 then n + 1
  else if n = 0x1A6 then 0x280
  else if n = 0x1A7 then 0x1A8
  else if n = 0x1A9 then 0x283
  else if n = 0x1AC then 0x1AD
  else if n = 0x1AE then 0x288
  else if n = 0x1AF then 0x1B0
  else if n = 0x1B1 ∨ n = 0x1B2 then n + 0xD9
  else if n = 0x1B3 ∨ n = 0x1B5 then n + 1
  else if n = 0x1B7 then 0x292
  else if n = 0x1B8 ∨ n = 0x1BC then n + 1
  else if n = 0x1C4 ∨ n = 0x1C5 then 0x1C6
  else if n = 0x1C7 ∨ n = 0x1C8 then 0x1C9
  else if n = 0x1CA ∨ n = 0x1CB then 0x1CC
  else if 0x1CD ≤ n ∧ n ≤ 0x1DC ∧ n % 2 = 1 then n + 1
  else if 0x1DE ≤ n ∧ n ≤ 0x1EF ∧ n % 2 = 0 then n + 1
  else if n = 0x1F1 ∨ n = 0x1F2 then 0x1F3
  else if n = 0x1F4 then 0x1F5
  else if n = 0x1F6 then 0x195
  else if n = 0x1F7 then 0x1BF
  else if 0x1F8 ≤ n ∧ n ≤ 0x21F ∧ n % 2 = 0 then n + 1
  else if n = 0x220 then 0x19E
  else if 0x222 ≤ n ∧ n ≤ 0x233 ∧ n % 2 = 0 then n + 1
  else if n = 0x23A then 0x2C65
  else if n = 0x23B then 0x23C
  else if n = 0x23D then 0x19A
  else if n = 0x23E then 0x2C66
  else if n = 0x241 then 0x242
  else if n = 0x243 then 0x180
  else if n = 0x244 then 0x289
  else if n = 0x245 then 0x28C
  else if 0x246 ≤ n ∧ n ≤ 0x24F ∧ n % 2 = 0 then n + 1
  else if n = 0x370 ∨ n = 0x372 ∨ n = 0x376 then n + 1
  else if n = 0x37F then 0x3F3
  else if n = 0x386 then 0x3AC
  else if 0x388 ≤ n ∧ n ≤ 0x38A then n + 0x25
  else if n = 0x38C then 0x3CC
  else if n = 0x38E ∨ n = 0x38F then n + 0x3F
  else if 0x391 ≤ n ∧ n ≤ 0x3A1 then n + 0x20
  else if 0x3A3 ≤ n ∧ n ≤ 0x3AB then n + 0x20
  else if n = 0x3CF then 0x3D7
  else if 0x3D8 ≤ n ∧ n ≤ 0x3EF ∧ n % 2 = 0 then n + 1
  else if n = 0x3F4 then 0x3B8
  else if n = 0x3F7 then 0x3F8
  else if n = 0x3F9 then 0x3F2
  else if n = 0x3FA then 0x3FB
  else if 0x3FD ≤ n ∧ n ≤ 0x3FF then n - 0x82
  else if 0x400 ≤ n ∧ n ≤ 0x40F then n + 0x50
  else if 0x410 ≤ n ∧ n ≤ 0x42F then n + 0x20
  else if 0x460 ≤ n ∧ n ≤ 0x481 ∧ n % 2 = 0 then n + 1
  else if 0x48A ≤ n ∧ n ≤ 0x4BF ∧ n % 2 = 0 then n + 1
  else if n = 0x4C0 then 0x4CF
  else if 0x4C1 ≤ n ∧ n ≤ 0x4CE ∧ n % 2 = 1 then n + 1
  else if 0x4D0 ≤ n ∧ n ≤ 0x52F ∧ n % 2 = 0 then n + 1
  else if 0x531 ≤ n ∧ n ≤ 0x556 then n + 0x30
  else if 0x10A0 ≤ n ∧ n ≤ 0x10C5 then n + 0x1C60
  else if n = 0x10C7 ∨ n = 0x10CD then n + 0x1C60
  else if 0x13A0 ≤ n ∧ n ≤ 0x13EF then n + 0x97D0
  else if 0x13F0 ≤ n ∧ n ≤ 0x13F5 then n + 8
  else if 0x1C90 ≤ n ∧ n ≤ 0x1CBA then n - 0xBC0
  else if 0x1CBD ≤ n ∧ n ≤ 0x1CBF then n - 0xBC0
  else if 0x1E00 ≤ n ∧ n ≤ 0x1E95 ∧ n % 2 = 0 then n + 1
  else if n = 0x1E9E then 0xDF
  else if 0x1EA0 ≤ n ∧ n ≤ 0x1EFF ∧ n % 2 = 0 then n + 1
  else if 0x1F08 ≤ n ∧ n ≤ 0x1F0F then n - 8
  else if 0x1F18 ≤ n ∧ n ≤ 0x1F1D then n - 8
  else if 0x1F28 ≤ n ∧ n ≤ 0x1F2F then n - 8
  else if 0x1F38 ≤ n ∧ n ≤ 0x1F3F then n - 8
  else if 0x1F48 ≤ n ∧ n ≤ 0x1F4D then n - 8
  else if n = 0x1F59 ∨ n = 0x1F5B ∨ n = 0x1F5D ∨ n = 0x1F5F then n - 8
  else if 0x1F68 ≤ n ∧ n ≤ 0x1F6F then n - 8
  else if 0x1F88 ≤ n ∧ n ≤ 0x1F8F then n - 8
  else if 0x1F98 ≤ n ∧ n ≤ 0x1F9F then n - 8
  else if 0x1FA8 ≤ n ∧ n ≤ 0x1FAF then n - 8
  else if n = 0x1FB8 ∨ n = 0x1FB9 then n - 8
  else if n = 0x1FBA ∨ n = 0x1FBB then n - 0x4A
  else if n = 0x1FBC then 0x1FB3
  else if 0x1FC8 ≤ n ∧ n ≤ 0x1FCB then n - 0x56
  else if n = 0x1FCC then 0x1FC3
  else if n = 0x1FD8 ∨ n = 0x1FD9 then n - 8
  else if n = 0x1FDA ∨ n = 0x1FDB then n - 0x64
  else if n = 0x1FE8 ∨ n = 0x1FE9 then n - 8
  else if n = 0x1FEA ∨ n = 0x1FEB then n - 0x70
  else if n = 0x1FEC then 0x1FE5
  else if n = 0x1FF8 ∨ n = 0x1FF9 then n - 0x80
  else if n = 0x1FFA ∨ n = 0x1FFB then n - 0x7E
  else if n = 0x1FFC then 0x1FF3
  else if n = 0x2126 then 0x3C9
  else if n = 0x212A then 0x6B
  else if n = 0x212B then 0xE5
  else if n = 0x2132 then 0x214E
  else if 0x2160 ≤ n ∧ n ≤ 0x216F then n + 0x10
  else if n = 0x2183 then 0x2184
  else if 0x24B6 ≤ n ∧ n ≤ 0x24CF then n + 0x1A
  else if 0x2C00 ≤ n ∧ n ≤ 0x2C2F then n + 0x30
  else if n = 0x2C60 then 0x2C61
  else if n = 0x2C62 then 0x26B
  else if n = 0x2C63 then 0x1D7D
  else if n = 0x2C64 then 0x27D
  else if n = 0x2C67 ∨ n = 0x2C69 ∨ n = 0x2C6B then n + 1
  else if n = 0x2C6D then 0x251
  else if n = 0x2C6E then 0x271
  else if n = 0x2C6F then 0x250
  else if n = 0x2C70 then 0x252
  else if n = 0x2C72 ∨ n = 0x2C75 then n + 1
  else if n = 0x2C7E ∨ n = 0x2C7F then n - 0x2A3F
  else if 0x2C80 ≤ n ∧ n ≤ 0x2CE3 ∧ n % 2 = 0 then n + 1
  else if n = 0x2CEB ∨ n = 0x2CED then n + 1
  else if n = 0x2CF2 then 0x2CF3
  else if 0xA640 ≤ n ∧ n ≤ 0xA66D ∧ n % 2 = 0 then n + 1
  else if 0xA680 ≤ n ∧ n ≤ 0xA69B ∧ n % 2 = 0 then n + 1
  else if 0xA722 ≤ n ∧ n ≤ 0xA72F ∧ n % 2 = 0 then n + 1
  else if 0xA732 ≤ n ∧ n ≤ 0xA76F ∧ n % 2 = 0 then n + 1
  else if n = 0xA779 ∨ n = 0xA77B then n + 1
  else if n = 0xA77D then 0x1D79
  else if 0xA77E ≤ n ∧ n ≤ 0xA787 ∧ n % 2 = 0 then n + 1
  else if n = 0xA78B then 0xA78C
  else if n = 0xA78D then 0x265
  else if n = 0xA790 ∨ n = 0xA792 then n + 1
  else if 0xA796 ≤ n ∧ n ≤ 0xA7A9 ∧ n % 2 = 0 then n + 1
  else if n = 0xA7AA then 0x266
  else if n = 0xA7AB then 0x25C
  else if n = 0xA7AC then 0x261
  else if n = 0xA7AD then 0x26C
  else if n = 0xA7AE then 0x26A
  else if n = 0xA7B0 then 0x29E
  else if n = 0xA7B1 then 0x287
  else if n = 0xA7B2 then 0x29D
  else if n = 0xA7B3 then 0xAB53
  else if 0xA7B4 ≤ n ∧ n ≤ 0xA7C3 ∧ n % 2 = 0 then n + 1
  else if n = 0xA7C4 then 0xA794
  else if n = 0xA7C5 then 0x282
  else if n = 0xA7C6 then 0x1D8E
  else if n = 0xA7C7 ∨ n = 0xA7C9 then n + 1
  else if n = 0xA7D0 ∨ n = 0xA7D6 ∨ n = 0xA7D8 then n + 1
  else if n = 0xA7F5 then 0xA7F6
  else if 0xFF21 ≤ n ∧ n ≤ 0xFF3A then n + 0x20
  else if 0x10400 ≤ n ∧ n ≤ 0x10427 then n + 0x28
  else if 0x104B0 ≤ n ∧ n ≤ 0x104D3 then n + 0x28
  else if 0x10C80 ≤ n ∧ n ≤ 0x10CB2 then n + 0x40
  else if 0x118A0 ≤ n ∧ n ≤ 0x118BF then n + 0x20
  else if 0x16E40 ≤ n ∧ n ≤ 0x16E5F then n + 0x20
  else if 0x1E900 ≤ n ∧ n ≤ 0x1E921 then n + 0x22
  else n

/-- Modelled from the spec: str.lower on one character. Lowercasing maps
characters 1 to 1 through pyLowerCode, except LATIN CAPITAL LETTER I WITH
DOT ABOVE, whose full lowercase mapping is the two characters i followed
by COMBINING DOT ABOVE; the one context-sensitive rule of str.lower, the
final-sigma form of GREEK CAPITAL LETTER SIGMA, is modelled by the simple
mapping to the ordinary small sigma. -/
def pyCharLower (c : Char) : List Char :=
  if c.toNat = 0x130 then [Char.ofNat 0x69, Char.ofNat 0x307]
  else [Char.ofNat (pyLowerCode c.toNat)]

/-- Modelled from the spec: str.lower as the sort key, the lowercased
character sequence of a string. -/
def pyLower (s : String) : List Char :=
  (s.data.map pyCharLower).flatten

/-- The comparison the sorted call uses for a given lowercasing key
function: compare the keys lexicographically. The key function is a
parameter so that every ordering theorem quantifies over it and therefore
holds for the exact Unicode function the library applies; pyLower is its
concrete model. -/
def keyLe (low : String → List Char) (a b : String) : Bool :=
  charListLe (low a) (low b)

/-- Stable insertion of a key into a list sorted by keyLe: the new key goes
before the first strictly later element, after all earlier or tied ones
seen so far would keep it stable when driven by sortCI below. -/
def insertCI (low : String → List Char) (k : String) : List String → List String
  | [] => [k]
  | x :: xs => if keyLe low k x then k :: x :: xs else x :: insertCI low k xs

/-- Stable sort by keyLe, embedding sorted(keys, key=str.lower) relative
to the given key function: Python sorting is stable, and for a total
preorder every stable sort produces the same list, so stable insertion
sort is a faithful model. -/
def sortCI (low : String → List Char) : List String → List String
  | [] => []
  | x :: xs => insertCI low x (sortCI low xs)

/-- One line of the full listing. -/
def entryLine (k v : String) : String :=
  k ++ " = " ++ v

/-- Embeds the loop of print_all_properties: properties[name] for a name
that is not a key would raise a KeyError. -/
def renderLines (d : Dict) : List String → Except String (List String)
  | [] => .ok []
  | k :: ks =>
    match dictGet d k with
    | none => .error "KeyError"
    | some v =>
      match renderLines d ks with
      | .error e => .error e
      | .ok rest => .ok (entryLine k v :: rest)

/-- Embeds print_all_properties (lines 83 to 91) relative to a lowercasing
key function: header, then one line per key in the sorted order that key
function induces. -/
def print_all_properties_keyed (low : String → List Char) (d : Dict) :
    Except String (List String) :=
  match renderLines d (sortCI low (dictKeys d)) with
  | .error e => .error e
  | .ok ls => .ok (allHeader :: ls)

/-- Embeds print_all_properties (lines 83 to 91): the keyed listing at the
concrete model of str.lower. -/
def print_all_properties (d : Dict) : Except String (List String) :=
  print_all_properties_keyed pyLower d

/-- The environment one run of main sees: the path argument, what the file
system says about it, and what msilib does with it. -/
structure Env where
  path : String
  pathExists : Bool
  pathIsFile : Bool
  msi : MsiOutcome
deriving DecidableEq

/-- The observable result of one run of main. -/
structure RunResult where
  exitCode : Nat
  stdout : List String
  stderr : List String
deriving DecidableEq

def fileNotFoundMsg (path : String) : String :=
  "Файл \"" ++ path ++ "\" не найден или не является файлом."

def emptyTableMsg : String :=
  "Таблица Property не найдена или не содержит записей."

def msiErrorMsg (m : String) : String :=
  "Ошибка при чтении файла MSI: таблица Property недоступна или файл поврежден. Подробнее: " ++ m

def unexpectedMsg (m : String) : String :=
  "Непредвиденная ошибка: " ++ m

/-- Embeds main (lines 96 to 132): existence check, read, empty check, the
two report blocks, and the exception handlers mapped to exit codes. -/
def main (env : Env) : RunResult :=
  if !env.pathExists || !env.pathIsFile then
    { exitCode := 1, stdout := [], stderr := [fileNotFoundMsg env.path] }
  else
    match read_msi_properties env.msi with
    | .ok props =>
      if props.isEmpty then
        { exitCode := 2, stdout := [], stderr := [emptyTableMsg] }
      else
        match print_all_properties props with
        | .ok allLines =>
          { exitCode := 0, stdout := print_key_properties props ++ allLines,
            stderr := [] }
        | .error e =>
          { exitCode := 3, stdout := print_key_properties props,
            stderr := [unexpectedMsg e] }
    | .error (.msi m) =>
      { exitCode := 2, stdout := [], stderr := [msiErrorMsg m] }
    | .error (.other m) =>
      { exitCode := 3, stdout := [], stderr := [unexpectedMsg m] }

/-- Modelled from the spec: argparse semantics of parse_args (lines 15 to
25), one optional positional argument with a default value; two or more
positionals are a usage error. -/
def parse_args : List String → Except String String
  | [] => .ok "pokerok.msi"
  | [p] => .ok p
  | _ => .error "unrecognized arguments"

/-- Embeds properties.get(key) with Python reference semantics made
explicit: a read returns the dict it was handed, unchanged or not as the
method itself decides; get only reads. -/
def getS (d : Dict) (k : String) : Dict × Option String :=
  (d, dictGet d k)

/-- Embeds properties.keys() as a stateful read. -/
def keysS (d : Dict) : Dict × List String :=
  (d, dictKeys d)

/-- Embeds the body of print_key_properties with the dict threaded
through every access, to observe what the calls do to the PropertySet. -/
def print_key_propertiesS (d : Dict) : Dict × List String :=
  let step := fun (st : Dict × List String) (kl : String × String) =>
    let r := getS st.1 kl.1
    (r.1, st.2 ++ [padTo kl.2 14 ++ ": " ++ (match r.2 with
      | some v => v
      | none => placeholderText)])
  let st := keyLabels.foldl step (d, [keyHeader])
  (st.1, st.2 ++ [""])

/-- Embeds the loop of print_all_properties with the dict threaded
through every subscript access. -/
def renderLinesS (d : Dict) : List String → Dict × Except String (List String)
  | [] => (d, .ok [])
  | k :: ks =>
    let r := getS d k
    match r.2 with
    | none => (r.1, .error "KeyError")
    | some v =>
      match renderLinesS r.1 ks with
      | (d2, .error e) => (d2, .error e)
      | (d2, .ok rest) => (d2, .ok (entryLine k v :: rest))

/-- Embeds print_all_properties with the dict threaded through. -/
def print_all_propertiesS (d : Dict) : Dict × Except String (List String) :=
  let r := keysS d
  renderLinesS r.1 (sortCI pyLower r.2)

/-- The value of the last row of the sequence carrying the given name,
the reference point for the overwrite behaviour of the fetch loop. -/
def lastValue : List (String × String) → String → Option String
  | [], _ => none
  | p :: rest, k =>
    match lastValue rest k with
    | some v => some v
    | none => if p.1 == k then some p.2 else none

/-- The sortedness invariant of the full listing: consecutive keys are in
case-insensitive order. -/
def CISorted (low : String → List Char) (l : List String) : Prop :=
  l.Pairwise (fun a b => keyLe low a b = true)

/-- The outcome classes of one run and their exit codes, stated as the
spec states them: 1 exactly for a failed path check, 0 exactly for a
fetch that yields a non-empty mapping, 2 exactly for an MSIError or an
empty mapping, 3 exactly for any other exception; on success the stdout
is the key block followed by the full listing. -/
def exitCodeSpec (env : Env) : Prop :=
  ((main env).exitCode = 1 ↔ (env.pathExists = false ∨ env.pathIsFile = false))
  ∧ ((main env).exitCode = 0 ↔ env.pathExists = true ∧ env.pathIsFile = true ∧
      (∃ rows, env.msi = .fetched rows ∧ buildDict rows ≠ []))
  ∧ ((main env).exitCode = 2 ↔ env.pathExists = true ∧ env.pathIsFile = true ∧
      ((∃ m, env.msi = .openError m) ∨ (∃ m, env.msi = .viewError m) ∨
        (∃ rows, env.msi = .fetched rows ∧ buildDict rows = [])))
  ∧ ((main env).exitCode = 3 ↔ env.pathExists = true ∧ env.pathIsFile = true ∧
      (∃ m, env.msi = .otherError m))
  ∧ ((main env).exitCode = 0 →
      ∃ props ls, read_msi_properties env.msi = .ok props
        ∧ print_all_properties props = .ok ls
        ∧ (main env).stdout = print_key_properties props ++ ls)

/-- What a run with a failed path check observably does: exit code 1, the
diagnostic on stderr, nothing on stdout. -/
def missingFileResult (env : Env) : Prop :=
  (main env).exitCode = 1 ∧ (main env).stdout = []
    ∧ (main env).stderr = [fileNotFoundMsg env.path]

/-- The reader contract: a successful query returns the mapping built by
the linear scan of the rows, and an MSIError escapes exactly when the
database could not be opened or the Property view could not be opened and
executed. -/
def readSpec (o : MsiOutcome) : Prop :=
  (∀ rows, o = .fetched rows → read_msi_properties o = .ok (buildDict rows))
  ∧ ((∃ e, read_msi_properties o = .error (.msi e)) ↔
      (∃ m, o = .openError m) ∨ (∃ m, o = .viewError m))

/-- The reporter totality contract: the key block is always its six lines
and the full listing always succeeds. -/
def reporterTotalSpec (d : Dict) : Prop :=
  (print_key_properties d).length = 6 ∧ ∃ ls, print_all_properties d = .ok ls

/-- The duplicate-row contract of the fetch loop: keys of the built
mapping are unique, a name is present exactly when some row carries it,
and its value is the value of the last such row. -/
def lastWinsSpec (rows : List (String × String)) (k : String) : Prop :=
  (dictKeys (buildDict rows)).Nodup
  ∧ (k ∈ dictKeys (buildDict rows) ↔ ∃ p ∈ rows, p.1 = k)
  ∧ dictGet (buildDict rows) k = lastValue rows k

/-- The placeholder contract of the key block: the placeholder is used
exactly on the None branch of properties.get, and a present value is
printed as stored. -/
def placeholderSpec (d : Dict) (k : String) : Prop :=
  (dictGet d k = none → valueOr d k = placeholderText)
  ∧ (∀ v, dictGet d k = some v → valueOr d k = v)

/-- The reporter contract of the two blocks, relative to a lowercasing
key function: the key block is the header, the four well-known keys in
their fixed order with the placeholder for the absent ones, and a blank
line; the full listing computed with that key function succeeds, holds
one line per entry of the mapping, and is ordered by the keys the
function assigns. Quantified over the key function it covers the exact
str.lower the library applies. -/
def reporterSpec (low : String → List Char) (d : Dict) : Prop :=
  print_key_properties d =
    [keyHeader,
      padTo "ProductName" 14 ++ ": " ++ valueOr d "ProductName",
      padTo "ProductCode" 14 ++ ": " ++ valueOr d "ProductCode",
      padTo "ProductVersion" 14 ++ ": " ++ valueOr d "ProductVersion",
      padTo "Manufacturer" 14 ++ ": " ++ valueOr d "Manufacturer",
      ""]
  ∧ ∃ lines, print_all_properties_keyed low d = .ok (allHeader :: lines)
      ∧ lines.Perm (d.map (fun p => entryLine p.1 p.2))
      ∧ ∃ ks, ks.Perm (dictKeys d) ∧ CISorted low ks
          ∧ lines = ks.map (fun k => entryLine k ((dictGet d k).getD ""))

/-- The frame contract of the reporters: running the key block and then
the full listing on a mapping leaves it unchanged, same keys and same
values. -/
def reporterFrameSpec (d : Dict) : Prop :=
  (print_key_propertiesS d).1 = d
  ∧ (print_all_propertiesS (print_key_propertiesS d).1).1 = d
  ∧ dictKeys (print_all_propertiesS (print_key_propertiesS d).1).1 = dictKeys d
  ∧ ∀ k, dictGet (print_all_propertiesS (print_key_propertiesS d).1).1 k = dictGet d k

/-- Case-insensitive key uniqueness relative to a lowercasing key
function: no two rows have names that agree after lowercasing.
Instantiated at the library function this is exactly the condition that
no two names coincide under str.lower. -/
def ciDistinct (low : String → List Char) (rows : List (String × String)) : Prop :=
  (rows.map (fun p => low p.1)).Nodup

section OrderLemmas

theorem charListLe_total : ∀ as bs : List Char,
    charListLe as bs = false → charListLe bs as = true := by
  intro as
  induction as with
  | nil => intro bs h; simp [charListLe] at h
  | cons a as ih =>
    intro bs h
    cases bs with
    | nil => simp [charListLe]
    | cons b bs =>
      by_cases hab : a = b
      · subst hab
        simp only [charListLe, if_pos rfl] at h ⊢
        exact ih bs h
      · simp only [charListLe, if_neg hab, decide_eq_false_iff_not] at h
        have hba : b < a := by
          rcases lt_or_gt_of_ne hab with h1 | h1
          · exact absurd h1 h
          · exact h1
        simp [charListLe, if_neg (Ne.symm hab), hba]

theorem charListLe_trans : ∀ as bs cs : List Char,
    charListLe as bs = true → charListLe bs cs = true → charListLe as cs = true := by
  intro as
  induction as with
  | nil => intro bs cs _ _; simp [charListLe]
  | cons a as ih =>
    intro bs cs h1 h2
    cases bs with
    | nil => simp [charListLe] at h1
    | cons b bs =>
      cases cs with
      | nil => simp [charListLe] at h2
      | cons c cs =>
        by_cases hab : a = b <;> by_cases hbc : b = c
        · subst hab; subst hbc
          simp only [charListLe, if_pos rfl] at h1 h2 ⊢
          exact ih bs cs h1 h2
        · subst hab
          simp only [charListLe, if_neg hbc, decide_eq_true_eq] at h2
          simp [charListLe, if_neg hbc, h2]
        · subst hbc
          simp only [charListLe, if_neg hab, decide_eq_true_eq] at h1
          simp [charListLe, if_neg hab, h1]
        · simp only [charListLe, if_neg hab, decide_eq_true_eq] at h1
          simp only [charListLe, if_neg hbc, decide_eq_true_eq] at h2
          have hac : a < c := lt_trans h1 h2
          simp [charListLe, if_neg (ne_of_lt hac), hac]

theorem charListLe_antisymm : ∀ as bs : List Char,
    charListLe as bs = true → charListLe bs as = true → as = bs := by
  intro as
  induction as with
  | nil =>
    intro bs _ h2
    cases bs with
    | nil => rfl
    | cons b bs => simp [charListLe] at h2
  | cons a as ih =>
    intro bs h1 h2
    cases bs with
    | nil => simp [charListLe] at h1
    | cons b bs =>
      by_cases hab : a = b
      · subst hab
        simp only [charListLe, if_pos rfl] at h1 h2
        rw [ih bs h1 h2]
      · simp only [charListLe, if_neg hab, decide_eq_true_eq] at h1
        simp only [charListLe, if_neg (Ne.symm hab), decide_eq_true_eq] at h2
        exact absurd h2 (not_lt_of_lt h1)

theorem keyLe_total {low : String → List Char} {a b : String}
    (h : keyLe low a b = false) : keyLe low b a = true :=
  charListLe_total _ _ h

theorem keyLe_trans {low : String → List Char} {a b c : String}
    (h1 : keyLe low a b = true) (h2 : keyLe low b c = true) :
    keyLe low a c = true :=
  charListLe_trans _ _ _ h1 h2

theorem keyLe_antisymm_lower {low : String → List Char} {a b : String}
    (h1 : keyLe low a b = true) (h2 : keyLe low b a = true) :
    low a = low b :=
  charListLe_antisymm _ _ h1 h2

theorem insertCI_perm (low : String → List Char) (k : String) :
    ∀ l : List String, (insertCI low k l).Perm (k :: l) := by
  intro l
  induction l with
  | nil => exact List.Perm.refl _
  | cons x xs ih =>
    by_cases h : keyLe low k x = true
    · simp [insertCI, h]
    · simp only [insertCI, h, if_false]
      exact (ih.cons x).trans (List.Perm.swap k x xs)

theorem sortCI_perm (low : String → List Char) :
    ∀ l : List String, (sortCI low l).Perm l := by
  intro l
  induction l with
  | nil => exact List.Perm.refl _
  | cons x xs ih => exact (insertCI_perm low x (sortCI low xs)).trans (ih.cons x)

theorem mem_sortCI (low : String → List Char) {a : String} {l : List String} :
    a ∈ sortCI low l ↔ a ∈ l :=
  (sortCI_perm low l).mem_iff

theorem insertCI_sorted (low : String → List Char) (k : String) : ∀ {l : List String},
    CISorted low l → CISorted low (insertCI low k l) := by
  intro l
  induction l with
  | nil => intro _; simp [insertCI, CISorted]
  | cons x xs ih =>
    intro hs
    rcases (List.pairwise_cons.mp hs) with ⟨hx, hxs⟩
    by_cases h : keyLe low k x = true
    · show CISorted low (if keyLe low k x then k :: x :: xs else x :: insertCI low k xs)
      rw [if_pos h]
      refine List.pairwise_cons.mpr ⟨?_, hs⟩
      intro b hb
      rcases List.mem_cons.mp hb with rfl | hb
      · exact h
      · exact keyLe_trans h (hx b hb)
    · show CISorted low (if keyLe low k x then k :: x :: xs else x :: insertCI low k xs)
      rw [if_neg h]
      refine List.pairwise_cons.mpr ⟨?_, ih hxs⟩
      intro b hb
      rcases List.mem_cons.mp ((insertCI_perm low k xs).mem_iff.mp hb) with rfl | hb
      · exact keyLe_total (Bool.not_eq_true _ ▸ h)
      · exact hx b hb

theorem sortCI_sorted (low : String → List Char) :
    ∀ l : List String, CISorted low (sortCI low l) := by
  intro l
  induction l with
  | nil => simp [sortCI, CISorted]
  | cons x xs ih => exact insertCI_sorted low x ih

theorem eq_of_perm_of_ciSorted (low : String → List Char) :
    ∀ l1 l2 : List String, l1.Perm l2 →
    CISorted low l1 → CISorted low l2 →
    (∀ a ∈ l1, ∀ b ∈ l1, keyLe low a b = true → keyLe low b a = true → a = b) →
    l1 = l2 := by
  intro l1
  induction l1 with
  | nil =>
    intro l2 hp _ _ _
    exact (hp.nil_eq).symm ▸ rfl
  | cons a t1 ih =>
    intro l2 hp hs1 hs2 hanti
    cases l2 with
    | nil => exact absurd hp.symm.nil_eq (by simp)
    | cons b t2 =>
      rcases List.pairwise_cons.mp hs1 with ⟨ha1, ht1⟩
      rcases List.pairwise_cons.mp hs2 with ⟨hb2, ht2⟩
      have hab : a = b := by
        have hbmem : b ∈ a :: t1 := hp.mem_iff.mpr (List.mem_cons_self b t2)
        rcases List.mem_cons.mp hbmem with rfl | hbt1
        · rfl
        · have hamem : a ∈ b :: t2 := hp.mem_iff.mp (List.mem_cons_self a t1)
          rcases List.mem_cons.mp hamem with rfl | hat2
          · rfl
          · exact hanti a (List.mem_cons_self a t1) b (List.mem_cons_of_mem a hbt1)
              (ha1 b hbt1) (hb2 a hat2)
      subst hab
      have htp : t1.Perm t2 := hp.cons_inv
      have : t1 = t2 := by
        refine ih t2 htp ht1 ht2 ?_
        intro x hx y hy
        exact hanti x (List.mem_cons_of_mem a hx) y (List.mem_cons_of_mem a hy)
      rw [this]

end OrderLemmas

section DictLemmas

theorem mem_dictKeys {d : Dict} {k : String} : k ∈ dictKeys d ↔ ∃ p ∈ d, p.1 = k := by
  simp [dictKeys, List.mem_map]

theorem dictGet_insert (d : Dict) (k v q : String) :
    dictGet (dictInsert d k v) q = if q = k then some v else dictGet d q := by
  unfold dictInsert
  cases hmem : d.any (fun p => p.1 == k) with
  | true =>
    rw [if_pos rfl]
    have hfm : (d.map (fun p => if p.1 == k then (p.1, v) else p)).find?
          (fun p => p.1 == q)
        = (d.find? (fun p => p.1 == q)).map (fun p => if p.1 == k then (p.1, v) else p) := by
      rw [List.find?_map]
      congr 1
      congr 1
      funext p
      simp only [Function.comp_apply]
      show ((if p.1 == k then (p.1, v) else p).1 == q) = (p.1 == q)
      split <;> rfl
    unfold dictGet
    rw [hfm]
    by_cases hq : q = k
    · subst hq
      rw [if_pos rfl]
      have hex : ∃ p ∈ d, (p.1 == q) = true := List.any_eq_true.mp hmem
      obtain ⟨p0, hfind⟩ :
          ∃ p0, d.find? (fun p => p.1 == q) = some p0 :=
        Option.isSome_iff_exists.mp (List.find?_isSome.mpr hex)
      have hp0 := List.find?_some hfind
      have hp0q : p0.1 = q := by simpa [beq_iff_eq] using hp0
      rw [hfind]
      simp [hp0q]
    · rw [if_neg hq]
      cases hfind : d.find? (fun p => p.1 == q) with
      | none => rfl
      | some p0 =>
        have hp0 := List.find?_some hfind
        have hp0q : p0.1 = q := by simpa [beq_iff_eq] using hp0
        simp [hp0q, hq]
  | false =>
    rw [if_neg Bool.false_ne_true]
    have hall : ∀ p ∈ d, ¬ (p.1 == k) = true := by
      intro p hp hc
      have : d.any (fun p => p.1 == k) = true := List.any_eq_true.mpr ⟨p, hp, hc⟩
      rw [hmem] at this
      exact Bool.false_ne_true this
    unfold dictGet
    rw [List.find?_append]
    by_cases hq : q = k
    · subst hq
      rw [List.find?_eq_none.mpr hall, if_pos rfl]
      simp [List.find?]
    · rw [if_neg hq]
      have hone : ([(k, v)].find? (fun p => p.1 == q)) = none := by
        have hkq : (k == q) = false := by
          rw [beq_eq_false_iff_ne]
          exact Ne.symm hq
        simp [List.find?, hkq]
      rw [hone, Option.or_none]

theorem dictKeys_insert (d : Dict) (k v : String) :
    dictKeys (dictInsert d k v) =
      if d.any (fun p => p.1 == k) then dictKeys d else dictKeys d ++ [k] := by
  unfold dictInsert dictKeys
  split
  · rw [List.map_map]
    congr 1
    funext p
    show (if p.1 == k then (p.1, v) else p).1 = p.1
    split <;> rfl
  · simp

theorem any_key_iff {d : Dict} {k : String} :
    d.any (fun p => p.1 == k) = true ↔ k ∈ dictKeys d := by
  simp [List.any_eq_true, dictKeys, List.mem_map, beq_iff_eq]

theorem mem_dictKeys_insert {d : Dict} {k v q : String} :
    q ∈ dictKeys (dictInsert d k v) ↔ q ∈ dictKeys d ∨ q = k := by
  rw [dictKeys_insert]
  by_cases h : d.any (fun p => p.1 == k) = true
  · rw [if_pos h]
    constructor
    · exact Or.inl
    · rintro (hq | rfl)
      · exact hq
      · exact any_key_iff.mp h
  · rw [if_neg h]
    simp

theorem dictKeys_insert_nodup {d : Dict} {k v : String} (h : (dictKeys d).Nodup) :
    (dictKeys (dictInsert d k v)).Nodup := by
  rw [dictKeys_insert]
  by_cases hmem : d.any (fun p => p.1 == k) = true
  · rw [if_pos hmem]; exact h
  · rw [if_neg hmem]
    have hk : k ∉ dictKeys d := fun hc => hmem (any_key_iff.mpr hc)
    rw [List.nodup_append]
    refine ⟨h, List.nodup_singleton k, ?_⟩
    intro a ha hak
    rw [List.mem_singleton.mp hak] at ha
    exact hk ha

theorem foldl_get (rows : List (String × String)) : ∀ (acc : Dict) (k : String),
    dictGet (rows.foldl (fun d r => dictInsert d r.1 r.2) acc) k =
      match lastValue rows k with
      | some v => some v
      | none => dictGet acc k := by
  induction rows with
  | nil => intro acc k; rfl
  | cons p rest ih =>
    intro acc k
    simp only [List.foldl_cons]
    rw [ih]
    cases h : lastValue rest k with
    | some v => simp [lastValue, h]
    | none =>
      simp only [lastValue, h]
      rw [dictGet_insert]
      by_cases hk : p.1 = k
      · subst hk
        simp
      · simp [hk, Ne.symm hk]

theorem buildDict_get (rows : List (String × String)) (k : String) :
    dictGet (buildDict rows) k = lastValue rows k := by
  unfold buildDict
  rw [foldl_get]
  cases lastValue rows k <;> simp [dictGet]

theorem foldl_keys_mem (rows : List (String × String)) : ∀ (acc : Dict) (k : String),
    k ∈ dictKeys (rows.foldl (fun d r => dictInsert d r.1 r.2) acc) ↔
      k ∈ dictKeys acc ∨ ∃ p ∈ rows, p.1 = k := by
  induction rows with
  | nil => intro acc k; simp
  | cons p rest ih =>
    intro acc k
    simp only [List.foldl_cons]
    rw [ih, mem_dictKeys_insert]
    constructor
    · rintro ((hq | rfl) | ⟨q, hq, rfl⟩)
      · exact Or.inl hq
      · exact Or.inr ⟨p, List.mem_cons_self p rest, rfl⟩
      · exact Or.inr ⟨q, List.mem_cons_of_mem p hq, rfl⟩
    · rintro (hq | ⟨q, hq, rfl⟩)
      · exact Or.inl (Or.inl hq)
      · rcases List.mem_cons.mp hq with rfl | hq'
        · exact Or.inl (Or.inr rfl)
        · exact Or.inr ⟨q, hq', rfl⟩

theorem mem_buildDict_keys {rows : List (String × String)} {k : String} :
    k ∈ dictKeys (buildDict rows) ↔ ∃ p ∈ rows, p.1 = k := by
  unfold buildDict
  rw [foldl_keys_mem]
  simp [dictKeys]

theorem foldl_keys_nodup (rows : List (String × String)) : ∀ acc : Dict,
    (dictKeys acc).Nodup →
    (dictKeys (rows.foldl (fun d r => dictInsert d r.1 r.2) acc)).Nodup := by
  induction rows with
  | nil => intro acc h; exact h
  | cons p rest ih =>
    intro acc h
    simp only [List.foldl_cons]
    exact ih _ (dictKeys_insert_nodup h)

theorem buildDict_keys_nodup (rows : List (String × String)) :
    (dictKeys (buildDict rows)).Nodup :=
  foldl_keys_nodup rows [] (by simp [dictKeys])

theorem foldl_eq_append (rows : List (String × String)) : ∀ acc : Dict,
    (dictKeys acc ++ rows.map (fun p => p.1)).Nodup →
    rows.foldl (fun d r => dictInsert d r.1 r.2) acc = acc ++ rows := by
  induction rows with
  | nil => intro acc _; simp
  | cons p rest ih =>
    intro acc h
    have hp : p.1 ∉ dictKeys acc := by
      rcases List.nodup_append.mp h with ⟨_, _, hdisj⟩
      intro hmem
      exact hdisj hmem (by simp)
    have hany : acc.any (fun q => q.1 == p.1) = false := by
      rw [← Bool.not_eq_true]
      intro hc
      exact hp (any_key_iff.mp hc)
    have hins : dictInsert acc p.1 p.2 = acc ++ [p] := by
      unfold dictInsert
      rw [if_neg (by simp [hany]), Prod.mk.eta]
    simp only [List.foldl_cons]
    rw [hins, ih]
    · simp
    · have hkeys : dictKeys (acc ++ [p]) = dictKeys acc ++ [p.1] := by
        simp [dictKeys]
      rw [hkeys, List.append_assoc]
      simpa using h

theorem buildDict_eq_self {rows : List (String × String)}
    (h : (rows.map (fun p => p.1)).Nodup) : buildDict rows = rows := by
  unfold buildDict
  rw [foldl_eq_append rows [] (by simpa [dictKeys] using h)]
  simp

theorem dictGet_isSome_of_mem {d : Dict} {k : String} (h : k ∈ dictKeys d) :
    (dictGet d k).isSome = true := by
  rcases mem_dictKeys.mp h with ⟨p, hp, he⟩
  have hs : (d.find? (fun p => p.1 == k)).isSome :=
    List.find?_isSome.mpr ⟨p, hp, by simp [he]⟩
  unfold dictGet
  cases hf : d.find? (fun p => p.1 == k) with
  | none => rw [hf] at hs; simp at hs
  | some q => simp

theorem dictGet_eq_none_of_not_mem {d : Dict} {k : String} (h : k ∉ dictKeys d) :
    dictGet d k = none := by
  unfold dictGet
  rw [List.find?_eq_none.mpr]
  · rfl
  · intro p hp hc
    exact h (mem_dictKeys.mpr ⟨p, hp, by simpa [beq_iff_eq] using hc⟩)

theorem dictGet_of_mem_nodup {d : Dict} {p : String × String}
    (hnd : (dictKeys d).Nodup) (hp : p ∈ d) : dictGet d p.1 = some p.2 := by
  induction d with
  | nil => cases hp
  | cons q rest ih =>
    have hq1 : dictKeys (q :: rest) = q.1 :: dictKeys rest := rfl
    rw [hq1] at hnd
    rcases List.pairwise_cons.mp hnd with ⟨hqn, hrest⟩
    rcases List.mem_cons.mp hp with rfl | hp'
    · simp [dictGet, List.find?]
    · have hne : (q.1 == p.1) = false := by
        simp only [beq_eq_false_iff_ne, ne_eq]
        intro he
        exact hqn p.1 (mem_dictKeys.mpr ⟨p, hp', rfl⟩) he
      have : dictGet (q :: rest) p.1 = dictGet rest p.1 := by
        simp [dictGet, List.find?, hne]
      rw [this]
      exact ih hrest hp'

theorem dictGet_perm {d1 d2 : Dict} (hperm : d1.Perm d2)
    (hnd : (dictKeys d1).Nodup) (k : String) : dictGet d1 k = dictGet d2 k := by
  have hkp : (dictKeys d1).Perm (dictKeys d2) := by
    unfold dictKeys
    exact hperm.map (fun p => p.1)
  have hnd2 : (dictKeys d2).Nodup := hkp.nodup_iff.mp hnd
  cases hf : dictGet d1 k with
  | none =>
    have hk1 : k ∉ dictKeys d1 := by
      intro hm
      exact absurd (dictGet_isSome_of_mem hm) (by simp [hf])
    have hk2 : k ∉ dictKeys d2 := fun hm => hk1 (hkp.mem_iff.mpr hm)
    exact (dictGet_eq_none_of_not_mem hk2).symm
  | some v =>
    unfold dictGet at hf
    obtain ⟨q, hq, hqv⟩ :
        ∃ q, d1.find? (fun p => p.1 == k) = some q ∧ q.2 = v := by
      cases hff : d1.find? (fun p => p.1 == k) with
      | none => rw [hff] at hf; simp at hf
      | some q => rw [hff] at hf; exact ⟨q, rfl, by simpa using hf⟩
    have hqmem : q ∈ d1 := List.mem_of_find?_eq_some hq
    have hqk : q.1 = k := by simpa [beq_iff_eq] using List.find?_some hq
    have h2 : dictGet d2 q.1 = some q.2 :=
      dictGet_of_mem_nodup hnd2 (hperm.subset hqmem)
    rw [hqk] at h2
    rw [h2, hqv]

theorem renderLines_congr {d1 d2 : Dict} : ∀ ks : List String,
    (∀ k ∈ ks, dictGet d1 k = dictGet d2 k) →
    renderLines d1 ks = renderLines d2 ks := by
  intro ks
  induction ks with
  | nil => intro _; rfl
  | cons k rest ih =>
    intro h
    have hk : dictGet d1 k = dictGet d2 k := h k (List.mem_cons_self k rest)
    have hrest := ih fun q hq => h q (List.mem_cons_of_mem k hq)
    simp only [renderLines, hk, hrest]

theorem renderLines_eq_map {d : Dict} : ∀ ks : List String,
    (∀ k ∈ ks, (dictGet d k).isSome = true) →
    renderLines d ks = .ok (ks.map (fun k => entryLine k ((dictGet d k).getD ""))) := by
  intro ks
  induction ks with
  | nil => intro _; rfl
  | cons k rest ih =>
    intro h
    obtain ⟨v, hv⟩ := Option.isSome_iff_exists.mp (h k (List.mem_cons_self k rest))
    have hrest := ih fun q hq => h q (List.mem_cons_of_mem k hq)
    simp only [renderLines, hv, hrest, List.map_cons, Option.getD_some]

theorem print_all_keyed_eq (low : String → List Char) (d : Dict) :
    print_all_properties_keyed low d =
      .ok (allHeader ::
        (sortCI low (dictKeys d)).map (fun k => entryLine k ((dictGet d k).getD ""))) := by
  unfold print_all_properties_keyed
  rw [renderLines_eq_map]
  intro k hk
  exact dictGet_isSome_of_mem ((mem_sortCI low).mp hk)

theorem print_all_eq (d : Dict) :
    print_all_properties d =
      .ok (allHeader ::
        (sortCI pyLower (dictKeys d)).map (fun k => entryLine k ((dictGet d k).getD ""))) :=
  print_all_keyed_eq pyLower d

theorem renderLinesS_fst (d : Dict) : ∀ ks : List String, (renderLinesS d ks).1 = d := by
  intro ks
  induction ks with
  | nil => rfl
  | cons k rest ih =>
    have hstep : renderLinesS d (k :: rest) =
        match dictGet d k with
        | none => (d, .error "KeyError")
        | some v =>
          match renderLinesS d rest with
          | (d2, .error e) => (d2, .error e)
          | (d2, .ok rest2) => (d2, .ok (entryLine k v :: rest2)) := rfl
    rw [hstep]
    cases dictGet d k with
    | none => rfl
    | some v =>
      cases hrec : renderLinesS d rest with
      | mk d2 res =>
        have hd2 : d2 = d := by rw [← ih, hrec]
        cases res <;> simp [hd2]

end DictLemmas

section ClaimTheorems

/-- C6: the command line takes exactly one optional positional argument;
when it is omitted the path is the fixed default pokerok.msi, when it is
given it is used as is, and any second positional is a usage error. -/
theorem parse_args_optional_default :
    parse_args [] = .ok "pokerok.msi"
    ∧ (∀ p, parse_args [p] = .ok p)
    ∧ (∀ a b rest, parse_args (a :: b :: rest) = .error "unrecognized arguments") :=
  ⟨rfl, fun _ => rfl, fun _ _ _ => rfl⟩

/-- C4: when the path does not name an existing regular file, main exits
with code 1, writes the diagnostic to stderr, and writes nothing to
stdout. -/
theorem main_missing_file (env : Env)
    (h : env.pathExists = false ∨ env.pathIsFile = false) :
    missingFileResult env := by
  unfold missingFileResult main
  rcases h with h | h <;> simp [h]

/-- Witness for C4 at a concrete environment whose path does not exist. -/
theorem main_missing_file_witness :
    (({ path := "missing.msi", pathExists := false, pathIsFile := false,
        msi := .fetched [] } : Env).pathExists = false)
    ∧ missingFileResult
        { path := "missing.msi", pathExists := false, pathIsFile := false,
          msi := .fetched [] } :=
  ⟨rfl, main_missing_file _ (Or.inl rfl)⟩

/-- C5: the reader returns the linear-scan mapping exactly on a
successful fetch, and an MSIError escapes exactly when the database open
fails or the Property view cannot be opened and executed. -/
theorem read_msi_properties_contract : ∀ o : MsiOutcome, readSpec o := by
  intro o
  cases o <;> simp [readSpec, read_msi_properties]

/-- C9: later fetched rows overwrite earlier ones: the built mapping has
each name at most once, holds a name exactly when some row carries it,
and binds it to the value of the last such row. -/
theorem buildDict_last_wins : ∀ (rows : List (String × String)) (k : String),
    lastWinsSpec rows k :=
  fun rows k => ⟨buildDict_keys_nodup rows, mem_buildDict_keys, buildDict_get rows k⟩

/-- C10: the placeholder is printed for a well-known key exactly on the
None branch of properties.get, a stored value is printed as stored, and a
key present with the empty string gets the empty value, not the
placeholder. -/
theorem placeholder_only_when_absent :
    (∀ (d : Dict) (k : String), placeholderSpec d k)
    ∧ keyLine [("ProductName", "")] "ProductName" "ProductName" = "ProductName   : " := by
  constructor
  · intro d k
    constructor
    · intro h
      unfold valueOr
      rw [h]
    · intro v h
      unfold valueOr
      rw [h]
  · rfl

/-- Witness for C10: a key absent from a concrete mapping is rendered
with the placeholder. -/
theorem placeholder_only_when_absent_witness :
    dictGet [("ProductName", "X")] "Manufacturer" = none
    ∧ valueOr [("ProductName", "X")] "Manufacturer" = placeholderText :=
  ⟨by decide, (placeholder_only_when_absent.1 [("ProductName", "X")] "Manufacturer").1
    (by decide)⟩

/-- C7: the reporters are total: for every mapping the key block is its
six lines and the full listing returns normally, never the error branch. -/
theorem reporter_total : ∀ d : Dict, reporterTotalSpec d := by
  intro d
  refine ⟨rfl, ⟨_, print_all_eq d⟩⟩

/-- C1: the exit code of every run falls in one of the four outcome
classes and is determined by it: 1 exactly when the path check fails, 0
exactly when rows are fetched and the mapping is non-empty, 2 exactly for
an MSIError or an empty mapping, 3 exactly for any other exception; a
successful run prints the key block followed by the full listing. -/
theorem main_exit_code_classes : ∀ env : Env, exitCodeSpec env := by
  intro env
  rcases env with ⟨path, pe, pf, msi⟩
  cases pe with
  | false =>
    unfold exitCodeSpec main
    simp
  | true =>
    cases pf with
    | false =>
      unfold exitCodeSpec main
      simp
    | true =>
      cases msi with
      | openError m =>
        unfold exitCodeSpec main read_msi_properties
        simp
      | viewError m =>
        unfold exitCodeSpec main read_msi_properties
        simp
      | otherError m =>
        unfold exitCodeSpec main read_msi_properties
        simp
      | fetched rows =>
        by_cases hrows : buildDict rows = []
        · unfold exitCodeSpec main read_msi_properties
          simp [hrows]
        · have hne : (buildDict rows).isEmpty = false := List.isEmpty_eq_false.mpr hrows
          have hok := print_all_eq (buildDict rows)
          have hmain : main ⟨path, true, true, .fetched rows⟩ =
              { exitCode := 0,
                stdout := print_key_properties (buildDict rows)
                  ++ (allHeader :: (sortCI pyLower (dictKeys (buildDict rows))).map
                      (fun k => entryLine k ((dictGet (buildDict rows) k).getD ""))),
                stderr := [] } := by
            unfold main
            simp [read_msi_properties, hne, hok]
          unfold exitCodeSpec
          rw [hmain]
          refine ⟨by simp, ?_, ?_, ?_, ?_⟩
          · simp [hrows]
          · simp [hrows]
          · simp
          · intro _
            exact ⟨buildDict rows, _, rfl, hok, rfl⟩

/-- C2: for every lowercasing key function, hence in particular for the
str.lower the program passes to sorted, the key block is the header, the
four well-known keys in their fixed order with the placeholder for the
absent ones, and a blank line; the full listing succeeds, holds exactly
one line per entry, and is sorted by the lowercased keys. -/
theorem reporter_blocks (low : String → List Char) (d : Dict)
    (h : (dictKeys d).Nodup) : reporterSpec low d := by
  constructor
  · rfl
  · refine ⟨(sortCI low (dictKeys d)).map (fun k => entryLine k ((dictGet d k).getD "")),
      print_all_keyed_eq low d, ?_, sortCI low (dictKeys d), sortCI_perm low _,
      sortCI_sorted low _, rfl⟩
    have hmapeq : (dictKeys d).map (fun k => entryLine k ((dictGet d k).getD ""))
        = d.map (fun p => entryLine p.1 p.2) := by
      unfold dictKeys
      rw [List.map_map]
      apply List.map_congr_left
      intro p hp
      have hv := dictGet_of_mem_nodup h hp
      simp [Function.comp_apply, hv]
    have hp1 := (sortCI_perm low (dictKeys d)).map
      (fun k => entryLine k ((dictGet d k).getD ""))
    rw [hmapeq] at hp1
    exact hp1

/-- Witness for C2 at the concrete str.lower model and the spec's example
mapping with ProductName X and ProductVersion 1.0. -/
theorem reporter_blocks_witness :
    (dictKeys [("ProductName", "X"), ("ProductVersion", "1.0")]).Nodup
    ∧ reporterSpec pyLower [("ProductName", "X"), ("ProductVersion", "1.0")] :=
  ⟨by decide, reporter_blocks pyLower _ (by decide)⟩

/-- C8: the mapping returned by the reader is left unchanged, same keys
and same values, by running the key block and then the full listing. -/
theorem reporters_preserve_dict (rows : List (String × String)) (d : Dict)
    (_h : read_msi_properties (.fetched rows) = .ok d) :
    reporterFrameSpec d := by
  have hkey : (print_key_propertiesS d).1 = d := rfl
  have hall : (print_all_propertiesS d).1 = d :=
    renderLinesS_fst d (sortCI pyLower (dictKeys d))
  refine ⟨hkey, ?_, ?_, ?_⟩
  · rw [hkey]
    exact hall
  · rw [hkey, hall]
  · intro k
    rw [hkey, hall]

/-- Witness for C8 at a concrete fetched row list. -/
theorem reporters_preserve_dict_witness :
    read_msi_properties (.fetched [("ProductName", "X")]) = .ok [("ProductName", "X")]
    ∧ reporterFrameSpec [("ProductName", "X")] :=
  ⟨rfl, reporters_preserve_dict [("ProductName", "X")] _ rfl⟩

/-- Counterexample to C3 as stated: the two row sequences below are
permutations of the same entries with unique names and build the same
name-to-value mapping, yet the full listings differ, because the keys a
and A tie under the case-insensitive sort key and the stable sort keeps
them in insertion order. -/
theorem listing_depends_on_insertion_order :
    ([("a", "1"), ("A", "2")] : List (String × String)).Perm [("A", "2"), ("a", "1")]
    ∧ (∀ k, dictGet (buildDict [("a", "1"), ("A", "2")]) k
        = dictGet (buildDict [("A", "2"), ("a", "1")]) k)
    ∧ print_all_properties (buildDict [("a", "1"), ("A", "2")])
        ≠ print_all_properties (buildDict [("A", "2"), ("a", "1")]) := by
  have e1 : buildDict [("a", "1"), ("A", "2")] = [("a", "1"), ("A", "2")] := by decide
  have e2 : buildDict [("A", "2"), ("a", "1")] = [("A", "2"), ("a", "1")] := by decide
  refine ⟨by decide, ?_, ?_⟩
  · intro k
    rw [e1, e2]
    by_cases h1 : ("a" : String) = k
    · subst h1
      decide
    · by_cases h2 : ("A" : String) = k
      · subst h2
        decide
      · have b1 : (("a" : String) == k) = false := by
          rw [beq_eq_false_iff_ne]
          exact h1
        have b2 : (("A" : String) == k) = false := by
          rw [beq_eq_false_iff_ne]
          exact h2
        simp [dictGet, List.find?, b1, b2]
  · have v1 : print_all_properties (buildDict [("a", "1"), ("A", "2")])
        = .ok [allHeader, "a = 1", "A = 2"] := rfl
    have v2 : print_all_properties (buildDict [("A", "2"), ("a", "1")])
        = .ok [allHeader, "A = 2", "a = 1"] := rfl
    rw [v1, v2]
    intro hc
    have hl := Except.ok.inj hc
    exact absurd hl (by decide)

/-- C3 amended: for every lowercasing key function, hence in particular
for the str.lower the program passes to sorted, when additionally no two
row names coincide after lowercasing, the full listing computed with that
key function is the same for every insertion order of the same entries. -/
theorem listing_insertion_order_invariant (low : String → List Char)
    (rows1 rows2 : List (String × String))
    (hperm : rows1.Perm rows2) (hci : ciDistinct low rows1) :
    print_all_properties_keyed low (buildDict rows1)
      = print_all_properties_keyed low (buildDict rows2) := by
  unfold ciDistinct at hci
  have hmm : rows1.map (fun p => low p.1)
      = (rows1.map (fun p => p.1)).map low := by
    rw [List.map_map]
    rfl
  have hn1 : (rows1.map (fun p => p.1)).Nodup := by
    rw [hmm] at hci
    exact hci.of_map low
  have hn2 : (rows2.map (fun p => p.1)).Nodup :=
    ((hperm.map (fun p => p.1)).nodup_iff).mp hn1
  have hb1 : buildDict rows1 = rows1 := buildDict_eq_self hn1
  have hb2 : buildDict rows2 = rows2 := buildDict_eq_self hn2
  rw [hb1, hb2]
  have hkp : (dictKeys rows1).Perm (dictKeys rows2) := by
    unfold dictKeys
    exact hperm.map (fun p => p.1)
  have hcik : ((dictKeys rows1).map low).Nodup := by
    unfold dictKeys
    rw [← hmm]
    exact hci
  have hanti : ∀ a ∈ dictKeys rows1, ∀ b ∈ dictKeys rows1,
      keyLe low a b = true → keyLe low b a = true → a = b := by
    intro a ha b hb h1 h2
    exact List.inj_on_of_nodup_map hcik ha hb (keyLe_antisymm_lower h1 h2)
  have hsorted : sortCI low (dictKeys rows1) = sortCI low (dictKeys rows2) := by
    apply eq_of_perm_of_ciSorted low
    · exact (sortCI_perm low _).trans (hkp.trans (sortCI_perm low _).symm)
    · exact sortCI_sorted low _
    · exact sortCI_sorted low _
    · intro a ha b hb
      exact hanti a ((mem_sortCI low).mp ha) b ((mem_sortCI low).mp hb)
  have hget : ∀ k, dictGet rows1 k = dictGet rows2 k := by
    intro k
    refine dictGet_perm hperm ?_ k
    unfold dictKeys
    exact hn1
  unfold print_all_properties_keyed
  rw [hsorted, renderLines_congr (sortCI low (dictKeys rows2)) (fun k _ => hget k)]

/-- Witness for the amended C3: the concrete str.lower model and two
insertion orders of the example mapping, whose lowercased names are
distinct; the keyed listing at that model is the listing of the
program. -/
theorem listing_insertion_order_invariant_witness :
    ([("ProductName", "X"), ("ProductVersion", "1.0")] : List (String × String)).Perm
        [("ProductVersion", "1.0"), ("ProductName", "X")]
    ∧ ciDistinct pyLower [("ProductName", "X"), ("ProductVersion", "1.0")]
    ∧ print_all_properties (buildDict [("ProductName", "X"), ("ProductVersion", "1.0")])
        = print_all_properties (buildDict [("ProductVersion", "1.0"), ("ProductName", "X")]) :=
  ⟨by decide, by unfold ciDistinct; decide,
    listing_insertion_order_invariant pyLower _ _ (by decide)
      (by unfold ciDistinct; decide)⟩

/-- Witness for C1 at a concrete successful environment. -/
theorem main_exit_code_classes_witness :
    exitCodeSpec ⟨"pokerok.msi", true, true, .fetched [("ProductName", "X")]⟩ :=
  main_exit_code_classes _

/-- Witness for C5 at a concrete view failure. -/
theorem read_msi_properties_contract_witness :
    readSpec (.viewError "no Property table") :=
  read_msi_properties_contract _

/-- Witness for C6 at a concrete explicit path. -/
theorem parse_args_optional_default_witness :
    parse_args ["setup.msi"] = .ok "setup.msi" :=
  parse_args_optional_default.2.1 "setup.msi"

/-- Witness for C7 at a concrete mapping. -/
theorem reporter_total_witness :
    reporterTotalSpec [("ProductName", "X")] :=
  reporter_total _

/-- Witness for C9 at a concrete row sequence with a duplicated name. -/
theorem buildDict_last_wins_witness :
    lastWinsSpec [("a", "1"), ("a", "2")] "a" :=
  buildDict_last_wins _ _

end ClaimTheorems

end Pokerok
